import Mathlib

/-!
Verification development for the font-to-SVG parser (`FontParser` class).

Shallow embedding of the decoder and outline-to-path pipeline, translated
from the JavaScript source:
  * cmap format-4 / format-12 subtable decoding and character lookup,
  * CFF DICT / CharString operand decoding,
  * the CFF CharString interpreter (`drawCFF`) with subroutine calls,
  * variable-font axis setting and metric queries,
  * the contour-to-SVG-path emitter.

JavaScript numbers are modelled by `ℚ`; byte strings by `List Nat`;
JS `Map`s and plain objects by association lists with last-write-wins
update.  Reads past the end of a byte array (which yield `undefined`,
and `NaN` under arithmetic, in JS) are modelled by a default of 0; no
theorem below exercises such a read.
-/

namespace FontToSvg

/-- One point of a glyph contour.  Mirrors the point objects produced by
the decoders: design-unit coordinates, an on-curve flag, and (for CFF
cubic segment endpoints) a `cubic` flag with the two control points. -/
structure Pt where
  x : ℚ
  y : ℚ
  onCurve : Bool
  cubic : Bool := false
  x1 : ℚ := 0
  y1 : ℚ := 0
  x2 : ℚ := 0
  y2 : ℚ := 0
  deriving DecidableEq, Repr

/-- A decoded glyph: contours plus bounding box, as returned by
`parseTrueTypeGlyph` / `cffPathToGlyph`. -/
structure Glyph where
  contours : List (List Pt)
  xMin : ℚ
  yMin : ℚ
  xMax : ℚ
  yMax : ℚ
  deriving DecidableEq, Repr

/-- One hmtx entry, as read by `_parseHmtxTable`. -/
structure HMetric where
  advanceWidth : ℚ
  leftSideBearing : ℚ
  deriving DecidableEq, Repr

/-- One fvar axis record, as read by `_parseFvarTable`. -/
structure VariationAxis where
  tag : String
  min : ℚ
  default : ℚ
  max : ℚ
  deriving DecidableEq, Repr

/-- Association-list read: models JS `Map.get` / property access
(`m[tag]`), returning the value of the first matching key. -/
def lookupVal (m : List (String × ℚ)) (tag : String) : Option ℚ :=
  (m.find? (fun e => e.1 == tag)).map (fun e => e.2)

/-- Association-list write: models JS `Map.set` / property assignment
(`m[tag] = v`), overwriting an existing key or appending a new one. -/
def setVal : List (String × ℚ) → String → ℚ → List (String × ℚ)
  | [], t, v => [(t, v)]
  | e :: rest, t, v => if e.1 == t then (t, v) :: rest else e :: setVal rest t v

/-- Models the JS idiom `m[tag] || dflt`: the default is used both when
the key is absent and when the stored value is `0` (falsy in JS). -/
def getOrDefault (m : List (String × ℚ)) (tag : String) (dflt : ℚ) : ℚ :=
  match lookupVal m tag with
  | some v => if v = 0 then dflt else v
  | none => dflt

/-- Glyph-cache association list keyed by glyph index
(`this.glyphCache`). -/
def lookupCache (c : List (Nat × Glyph)) (glyphId : Nat) : Option Glyph :=
  (c.find? (fun e => e.1 == glyphId)).map (fun e => e.2)

/-- Glyph-cache write (`this.glyphCache.set(glyphId, glyph)`). -/
def cacheSet : List (Nat × Glyph) → Nat → Glyph → List (Nat × Glyph)
  | [], k, g => [(k, g)]
  | e :: rest, k, g => if e.1 == k then (k, g) :: rest else e :: cacheSet rest k g

/-- The per-parser-instance mutable state relevant to the variable-font
and metric APIs (a slice of the `FontParser` instance fields). -/
structure FontState where
  unitsPerEm : ℚ
  horizontalMetrics : List HMetric
  isVariableFont : Bool
  variationAxes : List VariationAxis
  currentAxisValues : List (String × ℚ)
  glyphCache : List (Nat × Glyph)
  deriving DecidableEq, Repr

/-- `this.variationAxes.find(a => a.tag === tag)`. -/
def findAxis (axes : List VariationAxis) (tag : String) : Option VariationAxis :=
  axes.find? (fun a => a.tag == tag)

/-- `setVariation(axisValues)` (source lines 830–845).  Returns `this`
unchanged for non-variable fonts; otherwise clamps each recognised axis
value into `[axis.min, axis.max]`, stores it, and clears the glyph
cache.  The argument map is a JS object; `Object.entries` iteration is
modelled by the list order. -/
def setVariation (st : FontState) (axisValues : List (String × ℚ)) : FontState :=
  if st.isVariableFont then
    let cur := axisValues.foldl
      (fun m e =>
        match findAxis st.variationAxes e.1 with
        | some axis => setVal m e.1 (max axis.min (min axis.max e.2))
        | none => m)
      st.currentAxisValues
    { st with currentAxisValues := cur, glyphCache := [] }
  else
    st

/-- `getGlyphMetrics(glyphId)` (source lines 859–881).  For a glyph
index past the hmtx table it falls back to `{unitsPerEm, 0}`; for a
variable font it scales the base metrics by `widthFactor = wdth/100`.
The source also computes `weightFactor = 1 + (wght - 150)/2000` ("More
subtle weight scaling for metrics") but never uses it; the dead binding
is kept here exactly as in the source. -/
def getGlyphMetrics (st : FontState) (glyphId : Nat) : HMetric :=
  if glyphId ≥ st.horizontalMetrics.length then
    { advanceWidth := st.unitsPerEm, leftSideBearing := 0 }
  else
    let baseMetrics := st.horizontalMetrics.getD glyphId ⟨0, 0⟩
    if st.isVariableFont then
      let wght := getOrDefault st.currentAxisValues "wght" 150
      let wdth := getOrDefault st.currentAxisValues "wdth" 100
      let widthFactor := wdth / 100
      let weightFactor := 1 + (wght - 150) / 2000
      { advanceWidth := baseMetrics.advanceWidth * widthFactor,
        leftSideBearing := baseMetrics.leftSideBearing * widthFactor }
    else
      baseMetrics

/-! ### Variable-font blending and the glyph cache -/

/-- Bounds record produced by `calculateGlyphBounds`. -/
structure GBounds where
  xMin : ℚ
  yMin : ℚ
  xMax : ℚ
  yMax : ℚ
  deriving DecidableEq, Repr

/-- All coordinates a point contributes to the bounds scan: the point
itself plus, for cubic points, its two control points. -/
def ptCoords (p : Pt) : List (ℚ × ℚ) :=
  (p.x, p.y) :: (if p.cubic then [(p.x1, p.y1), (p.x2, p.y2)] else [])

/-- `calculateGlyphBounds(contours)` (source lines 936–964): min/max
over every point and control point.  The JS `±Infinity` initialisation
with the final `isFinite` fallback to 0 is modelled by the empty-list
case. -/
def calculateGlyphBounds (contours : List (List Pt)) : GBounds :=
  match (contours.flatten.map ptCoords).flatten with
  | [] => ⟨0, 0, 0, 0⟩
  | c :: cs =>
    cs.foldl
      (fun b q => ⟨min b.xMin q.1, min b.yMin q.2, max b.xMax q.1, max b.yMax q.2⟩)
      ⟨c.1, c.2, c.1, c.2⟩

/-- `transformGlyph(glyph, widthFactor, weightFactor)` (source lines
913–934): x-coordinates scaled by the width factor, y by the weight
factor, cubic control points likewise (the JS conditional spread scales
them only when `point.cubic` is set); bounds recomputed. -/
def transformGlyph (g : Glyph) (widthFactor weightFactor : ℚ) : Glyph :=
  let contours := g.contours.map (fun contour =>
    contour.map (fun p =>
      { p with
        x := p.x * widthFactor
        y := p.y * weightFactor
        x1 := if p.cubic then p.x1 * widthFactor else p.x1
        y1 := if p.cubic then p.y1 * weightFactor else p.y1
        x2 := if p.cubic then p.x2 * widthFactor else p.x2
        y2 := if p.cubic then p.y2 * weightFactor else p.y2 }))
  let b := calculateGlyphBounds contours
  { contours := contours, xMin := b.xMin, yMin := b.yMin, xMax := b.xMax, yMax := b.yMax }

/-- `applyVariationToGlyph(baseGlyph, glyphId)` (source lines 900–911):
passes non-variable fonts (and null glyphs) through; otherwise scales by
`widthFactor = wdth/100` and `weightFactor = 1 + (wght - 150)/1500`. -/
def applyVariationToGlyph (st : FontState) (baseGlyph : Option Glyph) : Option Glyph :=
  match baseGlyph with
  | none => none
  | some g =>
    if st.isVariableFont then
      let wght := getOrDefault st.currentAxisValues "wght" 150
      let wdth := getOrDefault st.currentAxisValues "wdth" 100
      let widthFactor := wdth / 100
      let weightFactor := 1 + (wght - 150) / 1500
      some (transformGlyph g widthFactor weightFactor)
    else
      some g

/-- `parseGlyph(glyphId)` (source lines 884–897): cache lookup first;
on a miss, decode the base outline (`parseCFFGlyph` /
`parseTrueTypeGlyph`, abstracted here as `decodeBase`), blend it, and
cache the result.  Returns the glyph together with the updated state. -/
def parseGlyph (st : FontState) (decodeBase : Nat → Option Glyph) (glyphId : Nat) :
    Option Glyph × FontState :=
  match lookupCache st.glyphCache glyphId with
  | some g => (some g, st)
  | none =>
    let baseGlyph := decodeBase glyphId
    match applyVariationToGlyph st baseGlyph with
    | some g => (some g, { st with glyphCache := cacheSet st.glyphCache glyphId g })
    | none => (none, st)

/-! ### cmap decoding -/

/-- One segment of a cmap format-4 subtable (entries of the
`startCode` / `endCode` / `idDelta` / `idRangeOffset` arrays). -/
structure Format4Seg where
  startCode : Nat
  endCode : Nat
  idDelta : Int
  idRangeOffset : Nat
  deriving DecidableEq, Repr

/-- One group of a cmap format-12 subtable. -/
structure Format12Group where
  startCharCode : Nat
  endCharCode : Nat
  startGlyphID : Nat
  deriving DecidableEq, Repr

/-- The glyph index computed for code point `c` in segment number
`segIdx` of a format-4 subtable (source lines 644–657).  `readU16 o` is
the 16-bit big-endian read at absolute buffer offset `o` used by the
`idRangeOffset ≠ 0` indirection.  `(c + idDelta) & 0xffff` is the JS
16-bit wrap of the signed delta sum. -/
def format4GlyphIndex (seg : Format4Seg) (idRangeOffsetStart segIdx : Nat)
    (readU16 : Nat → Nat) (c : Nat) : Nat :=
  if seg.idRangeOffset = 0 then
    (((c : Int) + seg.idDelta) % 65536).toNat
  else
    let glyphIndexOffset :=
      idRangeOffsetStart + segIdx * 2 + seg.idRangeOffset + (c - seg.startCode) * 2
    let glyphIndexFromArray := readU16 glyphIndexOffset
    if glyphIndexFromArray ≠ 0 then
      (((glyphIndexFromArray : Int) + seg.idDelta) % 65536).toNat
    else 0

/-- The (code point, glyph index) pairs entered into `charToGlyph` by
the `_parseCmapFormat4` segment loop (source lines 642–663): one pass
over `[startCode[i], endCode[i]]` per segment, storing only nonzero
glyph indices. -/
def cmapFormat4Pairs (segs : List Format4Seg) (idRangeOffsetStart : Nat)
    (readU16 : Nat → Nat) : List (Nat × Nat) :=
  segs.enum.flatMap (fun ie =>
    (List.range' ie.2.startCode (ie.2.endCode + 1 - ie.2.startCode)).filterMap (fun c =>
      let g := format4GlyphIndex ie.2 idRangeOffsetStart ie.1 readU16 c
      if g ≠ 0 then some (c, g) else none))

/-- The (code point, glyph index) pairs entered into `charToGlyph` by
the `_parseCmapFormat12` group loop (source lines 674–683):
`startGlyphID + (c - startCharCode)` for every `c` in the group, stored
unconditionally. -/
def cmapFormat12Pairs (groups : List Format12Group) : List (Nat × Nat) :=
  groups.flatMap (fun grp =>
    (List.range' grp.startCharCode (grp.endCharCode + 1 - grp.startCharCode)).map
      (fun c => (c, grp.startGlyphID + (c - grp.startCharCode))))

/-- `Map.set` for the character map (last write wins). -/
def charMapSet : List (Nat × Nat) → Nat → Nat → List (Nat × Nat)
  | [], k, v => [(k, v)]
  | e :: rest, k, v => if e.1 == k then (k, v) :: rest else e :: charMapSet rest k v

/-- Builds `charToGlyph` from the stored pairs in storage order. -/
def buildCharToGlyph (pairs : List (Nat × Nat)) : List (Nat × Nat) :=
  pairs.foldl (fun m p => charMapSet m p.1 p.2) []

/-- `Map.get` for the character map. -/
def charMapGet (m : List (Nat × Nat)) (k : Nat) : Option Nat :=
  (m.find? (fun e => e.1 == k)).map (fun e => e.2)

/-- `getGlyphId(character)` (source lines 853–857):
`charToGlyph.get(codePoint) || 0`. -/
def getGlyphId (charToGlyph : List (Nat × Nat)) (codePoint : Nat) : Nat :=
  (charMapGet charToGlyph codePoint).getD 0

/-! ### CFF DICT and CharString operand decoding -/

/-- JS `ToInt32` of a nonnegative number: the value of
`(b1 << 24) | (b2 << 16) | (b3 << 8) | b4` as a signed 32-bit int. -/
def toInt32 (n : Nat) : Int :=
  if n % 4294967296 < 2147483648 then ((n % 4294967296 : Nat) : Int)
  else ((n % 4294967296 : Nat) : Int) - 4294967296

/-- `readDictOperand(data, index)` (source lines 1279–1307).  Note the
`b0 === 28` case is the JS expression `(data[index+1] << 8) |
data[index+2]`, whose value is the *unsigned* 16-bit combination, while
the `b0 === 29` case goes through `<< 24` and is genuinely signed. -/
def readDictOperand (data : List Nat) (index : Nat) : Int × Nat :=
  let b0 := data.getD index 0
  if 32 ≤ b0 ∧ b0 ≤ 246 then ((b0 : Int) - 139, index + 1)
  else if 247 ≤ b0 ∧ b0 ≤ 250 then
    (((b0 : Int) - 247) * 256 + (data.getD (index + 1) 0 : Int) + 108, index + 2)
  else if 251 ≤ b0 ∧ b0 ≤ 254 then
    (-((b0 : Int) - 251) * 256 - (data.getD (index + 1) 0 : Int) - 108, index + 2)
  else if b0 = 28 then
    ((((data.getD (index + 1) 0) <<< 8) ||| data.getD (index + 2) 0 : Nat), index + 3)
  else if b0 = 29 then
    (toInt32 ((data.getD (index + 1) 0) <<< 24 ||| (data.getD (index + 2) 0) <<< 16 |||
      (data.getD (index + 3) 0) <<< 8 ||| data.getD (index + 4) 0), index + 5)
  else (0, index + 1)

/-- `readCharStringOperand(data, index)` (source lines 1589–1618): same
ranges as the DICT encoding, except byte 255 pushes the signed 32-bit
combination divided by 65536. -/
def readCharStringOperand (data : List Nat) (index : Nat) : ℚ × Nat :=
  let b0 := data.getD index 0
  if 32 ≤ b0 ∧ b0 ≤ 246 then ((b0 : ℚ) - 139, index + 1)
  else if 247 ≤ b0 ∧ b0 ≤ 250 then
    (((b0 : ℚ) - 247) * 256 + (data.getD (index + 1) 0 : ℚ) + 108, index + 2)
  else if 251 ≤ b0 ∧ b0 ≤ 254 then
    (-((b0 : ℚ) - 251) * 256 - (data.getD (index + 1) 0 : ℚ) - 108, index + 2)
  else if b0 = 28 then
    (((((data.getD (index + 1) 0) <<< 8) ||| data.getD (index + 2) 0 : Nat) : ℚ), index + 3)
  else if b0 = 255 then
    ((toInt32 ((data.getD (index + 1) 0) <<< 24 ||| (data.getD (index + 2) 0) <<< 16 |||
      (data.getD (index + 3) 0) <<< 8 ||| data.getD (index + 4) 0) : ℚ) / 65536, index + 5)
  else (0, index + 1)

/-! ### Composite-glyph component transform -/

/-- The per-point component transform of `parseCompositeGlyph` (source
lines 1833–1837): the JS spread `{...pt, x: pt.x*m00 + pt.y*m01 + dx,
y: pt.x*m10 + pt.y*m11 + dy}` recomputes `x`/`y` and copies every other
field (including any cubic control coordinates) unchanged. -/
def transformComponentPoint (m00 m01 m10 m11 dx dy : ℚ) (pt : Pt) : Pt :=
  { pt with
    x := pt.x * m00 + pt.y * m01 + dx
    y := pt.x * m10 + pt.y * m11 + dy }

/-- Appending one component's transformed contours to the composite's
contour list (source lines 1831–1840).  `baseContours` is the contour
list obtained by decoding the referenced component glyph directly. -/
def appendComponentContours (allContours baseContours : List (List Pt))
    (m00 m01 m10 m11 dx dy : ℚ) : List (List Pt) :=
  allContours ++
    baseContours.map (fun contour => contour.map (transformComponentPoint m00 m01 m10 m11 dx dy))

/-! ### SVG path emission -/

/-- One emitted SVG path command.  The source builds a string by
appending `M x y`, `L x y`, `Q cx cy x y`, `C c1x c1y c2x c2y x y` and
`Z` fragments; each fragment is one constructor here. -/
inductive SVGCmd where
  | M (x y : ℚ)
  | L (x y : ℚ)
  | Q (cx cy x y : ℚ)
  | C (c1x c1y c2x c2y x y : ℚ)
  | Z
  deriving DecidableEq, Repr

/-- The coordinate mapping of `contourToSVGPath`'s `coord`:
`x*scale + offsetX` and (optionally Y-flipped) `y*scale + offsetY`. -/
def svgCoord (scale : ℚ) (flipY : Bool) (offsetX offsetY : ℚ) (pt : Pt) : ℚ × ℚ :=
  (pt.x * scale + offsetX,
   if flipY then -pt.y * scale + offsetY else pt.y * scale + offsetY)

/-- Fallback point for list indexing (source indices are always in
range; see the bounds maintained by the walk below). -/
def dfltPt : Pt := ⟨0, 0, true, false, 0, 0, 0, 0⟩

/-- The leading on-curve point synthesis of `contourToSVGPath` (source
lines 1077–1088): if the first point is off-curve, unshift a copy of
the last point when it is on-curve, else the midpoint of last and
first. -/
def ensureFirstOnCurve (pts : List Pt) : List Pt :=
  match pts with
  | [] => []
  | p0 :: _ =>
    if p0.onCurve then pts
    else
      match pts.getLast? with
      | none => pts
      | some last =>
        let firstOn :=
          if last.onCurve then last
          else ⟨(last.x + p0.x) / 2, (last.y + p0.y) / 2, true, false, 0, 0, 0, 0⟩
        firstOn :: pts

/-- The `while (i < pts.length)` emission loop of `contourToSVGPath`
(source lines 1097–1137), with an explicit fuel argument standing for
the loop's termination (each iteration advances `i` by 1 or 2, so
`pts.length` steps of fuel always suffice from `i = 1`). -/
def contourWalk (scale : ℚ) (flipY : Bool) (offsetX offsetY : ℚ) :
    Nat → List Pt → Nat → List SVGCmd
  | 0, _, _ => []
  | fuel + 1, pts, i =>
    if i < pts.length then
      let curr := pts.getD (i % pts.length) dfltPt
      if curr.onCurve then
        let cmd :=
          if curr.cubic then
            let c1x := curr.x1 * scale + offsetX
            let c1y := if flipY then -curr.y1 * scale + offsetY else curr.y1 * scale + offsetY
            let c2x := curr.x2 * scale + offsetX
            let c2y := if flipY then -curr.y2 * scale + offsetY else curr.y2 * scale + offsetY
            let e := svgCoord scale flipY offsetX offsetY curr
            SVGCmd.C c1x c1y c2x c2y e.1 e.2
          else
            let e := svgCoord scale flipY offsetX offsetY curr
            SVGCmd.L e.1 e.2
        cmd :: contourWalk scale flipY offsetX offsetY fuel pts (i + 1)
      else
        let control := curr
        let next := pts.getD ((i + 1) % pts.length) dfltPt
        let c := svgCoord scale flipY offsetX offsetY control
        if next.onCurve then
          let e := svgCoord scale flipY offsetX offsetY next
          SVGCmd.Q c.1 c.2 e.1 e.2 :: contourWalk scale flipY offsetX offsetY fuel pts (i + 2)
        else
          let endPt : Pt :=
            ⟨(control.x + next.x) / 2, (control.y + next.y) / 2, true, false, 0, 0, 0, 0⟩
          let e := svgCoord scale flipY offsetX offsetY endPt
          SVGCmd.Q c.1 c.2 e.1 e.2 :: contourWalk scale flipY offsetX offsetY fuel pts (i + 1)
    else []

/-- `contourToSVGPath(points, scale, flipY, offsetX, offsetY)` (source
lines 1072–1140): empty string for an empty contour; otherwise `M` at
the (possibly synthesized) first on-curve point, the emission loop from
`i = 1`, and a closing `Z`. -/
def contourToSVGPath (points : List Pt) (scale : ℚ) (flipY : Bool)
    (offsetX offsetY : ℚ) : List SVGCmd :=
  match points with
  | [] => []
  | _ =>
    let pts := ensureFirstOnCurve points
    let s := svgCoord scale flipY offsetX offsetY (pts.headD dfltPt)
    SVGCmd.M s.1 s.2 ::
      (contourWalk scale flipY offsetX offsetY pts.length pts 1 ++ [SVGCmd.Z])

/-- `glyphToSVGPath` (source lines 967–982): the per-contour strings
joined; at the command level the join is list concatenation. -/
def glyphToSVGPath (contours : List (List Pt)) (scale : ℚ) (flipY : Bool)
    (offsetX offsetY : ℚ) : List SVGCmd :=
  (contours.map (fun c => contourToSVGPath c scale flipY offsetX offsetY)).flatten

/-- Number of `M` commands in an emitted command list. -/
def countM (cmds : List SVGCmd) : Nat :=
  cmds.countP (fun c => match c with | SVGCmd.M _ _ => true | _ => false)

/-- Number of `Z` commands in an emitted command list. -/
def countZ (cmds : List SVGCmd) : Nat :=
  cmds.countP (fun c => match c with | SVGCmd.Z => true | _ => false)

/-! ### CFF subroutine bias and CharString interpreter -/

/-- The bias formula `n < 1240 ? 107 : n < 33900 ? 1131 : 32768`
applied to a subroutine INDEX entry count (source lines 768–770 for the
global table, 1271–1272 for the local table). -/
def computeBias (n : Nat) : Int :=
  if n < 1240 then 107 else if n < 33900 then 1131 else 32768

/-- The local-subroutine outcome of `parsePrivateDict` (source lines
1268–1276): when a Subrs offset was found the INDEX is read and its
bias computed from its count; otherwise the table is empty and the
stored bias is 0. -/
def localSubrsAndBias (loaded : Option (List (List Nat))) : List (List Nat) × Int :=
  match loaded with
  | some subrs => (subrs, computeBias subrs.length)
  | none => ([], 0)

/-- The bias actually used at a subroutine call: the JS expression
`this.cffLocalBias || 107` (resp. global), i.e. the stored bias with a
falsy value of 0 replaced by 107 (source lines 1459–1462). -/
def effBias (stored : Int) : Int :=
  if stored = 0 then 107 else stored

/-- JS `Math.round`: round half-up. -/
def jsRound (q : ℚ) : Int := ⌊q + 1 / 2⌋

/-- The table index a callsubr/callgsubr accesses, before the range
check: `Math.round(stack.pop()) + bias` with the effective bias
(source lines 1456–1464). -/
def callTargetIndex (storedBias : Int) (v : ℚ) : Int :=
  jsRound v + effBias storedBias

/-- One path command accumulated by the CharString interpreter
(`state.path` entries). -/
inductive CffCmd where
  | moveto (x y : ℚ)
  | lineto (x y : ℚ)
  | curveto (x1 y1 x2 y2 x3 y3 : ℚ)
  | closepath
  deriving DecidableEq, Repr

/-- The interpreter state threaded through `drawCFF`: the operand
stack and path are shared by reference across subroutine calls in the
JS source, and the scalar fields are saved/restored around each call;
both effects amount to threading this whole record. -/
structure PenState where
  stack : List ℚ
  x : ℚ
  y : ℚ
  nStems : Nat
  haveWidth : Bool
  width : ℚ
  pathOpen : Bool
  path : List CffCmd
  deriving DecidableEq, Repr

/-- `stack.shift()`: remove from the front.  An empty stack yields
`undefined` (`NaN` under arithmetic) in JS; modelled by 0 and never
exercised by the theorems below. -/
def shiftFront : List ℚ → ℚ × List ℚ
  | [] => (0, [])
  | a :: rest => (a, rest)

/-- `stack.pop()`: remove from the back (same empty-stack caveat). -/
def popBack : List ℚ → ℚ × List ℚ
  | [] => (0, [])
  | [a] => (a, [])
  | a :: b :: rest =>
    let r := popBack (b :: rest)
    (r.1, a :: r.2)

/-- The `rlineto` loop (source lines 1408–1412): shift pairs of deltas
until the stack is empty, emitting a `lineto` for each pair. -/
def rlinetoRun (x y : ℚ) : List ℚ → ℚ × ℚ × List CffCmd
  | [] => (x, y, [])
  | dx :: rest =>
    let s := shiftFront rest
    let x' := x + dx
    let y' := y + s.1
    let r := rlinetoRun x' y' s.2
    (r.1, r.2.1, CffCmd.lineto x' y' :: r.2.2)
  termination_by l => l.length
  decreasing_by
    cases rest <;> simp [shiftFront] at * <;> omega

/-- The `hlineto`/`vlineto` loop (source lines 1417–1429): one delta
per `lineto`, alternating axes, starting on x for `hlineto`. -/
def hvlinetoRun (alternate : Bool) (x y : ℚ) : List ℚ → ℚ × ℚ × List CffCmd
  | [] => (x, y, [])
  | a :: rest =>
    let x' := if alternate then x + a else x
    let y' := if alternate then y else y + a
    let r := hvlinetoRun (!alternate) x' y' rest
    (r.1, r.2.1, CffCmd.lineto x' y' :: r.2.2)

/-- The `rrcurveto` loop (source lines 1434–1450): groups of six deltas
while at least six remain; fewer than six are left on the stack. -/
def rrcurvetoRun (x y : ℚ) : List ℚ → ℚ × ℚ × List ℚ × List CffCmd
  | a :: b :: c :: d :: e :: f :: rest =>
    let c1x := x + a
    let c1y := y + b
    let c2x := c1x + c
    let c2y := c1y + d
    let x' := c2x + e
    let y' := c2y + f
    let r := rrcurvetoRun x' y' rest
    (r.1, r.2.1, r.2.2.1, CffCmd.curveto c1x c1y c2x c2y x' y' :: r.2.2.2)
  | s => (x, y, s, [])

/-- The `vhcurveto`/`hvcurveto` loop (source lines 1535–1568): groups
of four deltas with the axis roles alternating each group; after the
four shifts, a single remaining operand is consumed as the final
"other"-axis delta. -/
def vhcurvetoRun (alternate : Bool) (x y : ℚ) : List ℚ → ℚ × ℚ × List ℚ × List CffCmd
  | a :: b :: c :: d :: rest =>
    if alternate then
      let c1x := x + a
      let c1y := y
      let c2x := c1x + b
      let c2y := c1y + c
      let y' := c2y + d
      if rest.length = 1 then
        -- final group: the remaining operand supplies the x delta, and
        -- the loop then exits on the empty stack
        let s := shiftFront rest
        let x' := c2x + s.1
        (x', y', s.2, [CffCmd.curveto c1x c1y c2x c2y x' y'])
      else
        let x' := c2x
        let r := vhcurvetoRun (!alternate) x' y' rest
        (r.1, r.2.1, r.2.2.1, CffCmd.curveto c1x c1y c2x c2y x' y' :: r.2.2.2)
    else
      let c1x := x
      let c1y := y + a
      let c2x := c1x + b
      let c2y := c1y + c
      let x' := c2x + d
      if rest.length = 1 then
        let s := shiftFront rest
        let y' := c2y + s.1
        (x', y', s.2, [CffCmd.curveto c1x c1y c2x c2y x' y'])
      else
        let y' := c2y
        let r := vhcurvetoRun (!alternate) x' y' rest
        (r.1, r.2.1, r.2.2.1, CffCmd.curveto c1x c1y c2x c2y x' y' :: r.2.2.2)
  | s => (x, y, s, [])
  termination_by l => l.length
  decreasing_by
  · simp only [List.length_cons]
    omega
  · simp only [List.length_cons]
    omega

/-- The parsed-CFF environment read by the interpreter: subroutine
tables, their stored biases, and the Private DICT's nominal width. -/
structure CffEnv where
  cffLocalSubrs : List (List Nat)
  cffGlobalSubrs : List (List Nat)
  cffLocalBias : Int
  cffGlobalBias : Int
  nominalWidthX : ℚ
  deriving DecidableEq, Repr

/-- Outcome of one iteration of the `drawCFF` byte loop. -/
inductive StepResult where
  /-- Loop continues at byte position `nextI`. -/
  | next (st : PenState) (nextI : Nat)
  /-- The `return` operator (11): exit the current interpretation. -/
  | ret (st : PenState)
  /-- An in-range callsubr/callgsubr: interpret `bytes` against the
  threaded state, then continue at `nextI`. -/
  | call (bytes : List Nat) (st : PenState) (nextI : Nat)
  deriving DecidableEq, Repr

/-- The hstem/hstemhm/vstem/vstemhm handler (source lines 1368–1392):
an odd stack consumes a leading width operand once, the stem count
grows by half the remaining stack, and the stack is cleared. -/
def stemStep (env : CffEnv) (st : PenState) : PenState :=
  let widthArg := st.stack.length % 2 ≠ 0 ∧ st.haveWidth = false
  let w := if widthArg then (shiftFront st.stack).1 + env.nominalWidthX else st.width
  let s1 := if widthArg then (shiftFront st.stack).2 else st.stack
  { st with width := w, nStems := st.nStems + s1.length / 2, stack := [], haveWidth := true }

/-- The vmoveto handler (source lines 1394–1405): optional width, close
any open path, move the pen vertically by the popped delta. -/
def vmovetoStep (env : CffEnv) (st : PenState) : PenState :=
  let widthArg := st.stack.length > 1 ∧ st.haveWidth = false
  let w := if widthArg then (shiftFront st.stack).1 + env.nominalWidthX else st.width
  let hw := if widthArg then true else st.haveWidth
  let s1 := if widthArg then (shiftFront st.stack).2 else st.stack
  let path1 := if st.pathOpen then st.path ++ [CffCmd.closepath] else st.path
  let p := popBack s1
  let y' := st.y + p.1
  { st with
      stack := p.2
      y := y'
      width := w
      haveWidth := hw
      path := path1 ++ [CffCmd.moveto st.x y']
      pathOpen := true }

/-- The rlineto handler (source lines 1407–1413). -/
def rlinetoStep (st : PenState) : PenState :=
  let r := rlinetoRun st.x st.y st.stack
  { st with x := r.1, y := r.2.1, stack := [], path := st.path ++ r.2.2 }

/-- The hlineto/vlineto handler (source lines 1415–1431); `b` is the
operator byte (6 starts on x). -/
def hvlinetoStep (b : Nat) (st : PenState) : PenState :=
  let r := hvlinetoRun (b = 6) st.x st.y st.stack
  { st with x := r.1, y := r.2.1, stack := [], path := st.path ++ r.2.2 }

/-- The rrcurveto handler (source lines 1433–1451). -/
def rrcurvetoStep (st : PenState) : PenState :=
  let r := rrcurvetoRun st.x st.y st.stack
  { st with x := r.1, y := r.2.1, stack := r.2.2.1, path := st.path ++ r.2.2.2 }

/-- The endchar handler (source lines 1498–1506). -/
def endcharStep (env : CffEnv) (st : PenState) : PenState :=
  let widthArg := st.stack.length > 0 ∧ st.haveWidth = false
  let w := if widthArg then (shiftFront st.stack).1 + env.nominalWidthX else st.width
  let hw := if widthArg then true else st.haveWidth
  let s1 := if widthArg then (shiftFront st.stack).2 else st.stack
  let path1 := if st.pathOpen then st.path ++ [CffCmd.closepath] else st.path
  { st with stack := s1, width := w, haveWidth := hw, path := path1 }

/-- The rmoveto handler (source lines 1508–1520). -/
def rmovetoStep (env : CffEnv) (st : PenState) : PenState :=
  let widthArg := st.stack.length > 2 ∧ st.haveWidth = false
  let w := if widthArg then (shiftFront st.stack).1 + env.nominalWidthX else st.width
  let hw := if widthArg then true else st.haveWidth
  let s1 := if widthArg then (shiftFront st.stack).2 else st.stack
  let path1 := if st.pathOpen then st.path ++ [CffCmd.closepath] else st.path
  let pdx := shiftFront s1
  let pdy := shiftFront pdx.2
  let x' := st.x + pdx.1
  let y' := st.y + pdy.1
  { st with
      stack := pdy.2
      x := x'
      y := y'
      width := w
      haveWidth := hw
      path := path1 ++ [CffCmd.moveto x' y']
      pathOpen := true }

/-- The hmoveto handler (source lines 1522–1533). -/
def hmovetoStep (env : CffEnv) (st : PenState) : PenState :=
  let widthArg := st.stack.length > 1 ∧ st.haveWidth = false
  let w := if widthArg then (shiftFront st.stack).1 + env.nominalWidthX else st.width
  let hw := if widthArg then true else st.haveWidth
  let s1 := if widthArg then (shiftFront st.stack).2 else st.stack
  let path1 := if st.pathOpen then st.path ++ [CffCmd.closepath] else st.path
  let p := popBack s1
  let x' := st.x + p.1
  { st with
      stack := p.2
      x := x'
      width := w
      haveWidth := hw
      path := path1 ++ [CffCmd.moveto x' st.y]
      pathOpen := true }

/-- The vhcurveto/hvcurveto handler (source lines 1535–1569); `b` is
the operator byte (31 starts on x). -/
def vhcurvetoStep (b : Nat) (st : PenState) : PenState :=
  let r := vhcurvetoRun (b = 31) st.x st.y st.stack
  { st with x := r.1, y := r.2.1, stack := r.2.2.1, path := st.path ++ r.2.2.2 }

/-- The subroutine table selected by a call operator (10 = local
subrs, 29 = global subrs; source line 1457–1458). -/
def subrTable (env : CffEnv) (b : Nat) : List (List Nat) :=
  if b = 10 then env.cffLocalSubrs else env.cffGlobalSubrs

/-- The stored bias matching the selected table (source lines
1459–1462 read `this.cffLocalBias` / `this.cffGlobalBias`). -/
def subrStoredBias (env : CffEnv) (b : Nat) : Int :=
  if b = 10 then env.cffLocalBias else env.cffGlobalBias

/-- The callsubr/callgsubr handler (source lines 1453–1486): with a
nonempty stack, pop and round the subroutine index, add the effective
bias (`callTargetIndex`), and call the addressed subroutine when the
biased index is in range; otherwise only the pop takes effect.  `b` is
the operator byte. -/
def callsubrStep (env : CffEnv) (b : Nat) (st : PenState) (i : Nat) : StepResult :=
  match st.stack.isEmpty with
  | true => StepResult.next st (i + 1)
  | false =>
    if 0 ≤ callTargetIndex (subrStoredBias env b) (popBack st.stack).1 ∧
        (callTargetIndex (subrStoredBias env b) (popBack st.stack).1).toNat <
          (subrTable env b).length then
      StepResult.call
        ((subrTable env b).getD
          (callTargetIndex (subrStoredBias env b) (popBack st.stack).1).toNat [])
        { st with stack := (popBack st.stack).2 } (i + 1)
    else
      StepResult.next { st with stack := (popBack st.stack).2 } (i + 1)

/-- The body of the `while (i < charString.length)` loop of `drawCFF`
(source lines 1349–1577).  `b ≥ 32` pushes an operand; operator bytes
dispatch to the handlers above, and every unhandled operator (including
all two-byte `12 x` escapes, none of which is implemented) clears the
stack. -/
def stepCFF (env : CffEnv) (cs : List Nat) (i : Nat) (st : PenState) : StepResult :=
  if 32 ≤ cs.getD i 0 then
    StepResult.next { st with stack := st.stack ++ [(readCharStringOperand cs i).1] }
      (readCharStringOperand cs i).2
  else
    match cs.getD i 0 with
    | 1 | 18 | 3 | 23 => StepResult.next (stemStep env st) (i + 1)
    | 4 => StepResult.next (vmovetoStep env st) (i + 1)
    | 5 => StepResult.next (rlinetoStep st) (i + 1)
    | 6 | 7 => StepResult.next (hvlinetoStep (cs.getD i 0) st) (i + 1)
    | 8 => StepResult.next (rrcurvetoStep st) (i + 1)
    | 10 | 29 => callsubrStep env (cs.getD i 0) st i
    | 11 => StepResult.ret st
    | 12 =>
      -- two-byte escape: `i` advances over the second byte and the
      -- unhandled operator clears the stack
      StepResult.next { st with stack := [] } (i + 2)
    | 14 => StepResult.next (endcharStep env st) (i + 1)
    | 21 => StepResult.next (rmovetoStep env st) (i + 1)
    | 22 => StepResult.next (hmovetoStep env st) (i + 1)
    | 30 | 31 => StepResult.next (vhcurvetoStep (cs.getD i 0) st) (i + 1)
    | _ => StepResult.next { st with stack := [] } (i + 1)

/-- Every step of the byte loop advances the position. -/
theorem readCharStringOperand_next_gt (data : List Nat) (index : Nat) :
    index < (readCharStringOperand data index).2 := by
  simp only [readCharStringOperand]
  repeat' split
  all_goals omega

/-- The loop position strictly increases on `next` and `call` outcomes
(needed for the interpreter's termination). -/
theorem stepCFF_next_gt (env : CffEnv) (cs : List Nat) (i : Nat) (st : PenState) :
    (∀ st' j, stepCFF env cs i st = StepResult.next st' j → i < j) ∧
    (∀ bs st' j, stepCFF env cs i st = StepResult.call bs st' j → i < j) := by
  constructor
  · intro st' j h
    unfold stepCFF at h
    repeat' split at h
    all_goals first
      | (cases h; omega)
      | (cases h
         exact readCharStringOperand_next_gt cs i)
      | (unfold callsubrStep at h
         repeat' split at h
         all_goals first
           | (cases h; omega)
           | cases h)
      | cases h
  · intro bs st' j h
    unfold stepCFF at h
    repeat' split at h
    all_goals first
      | (cases h; omega)
      | (unfold callsubrStep at h
         repeat' split at h
         all_goals first
           | (cases h; omega)
           | cases h)
      | cases h

/-- The `drawCFF` recursion (source lines 1342–1587) from byte position
`i`.  `depth` is the modelling budget for *nested subroutine calls
only* — the JS source recurses with no limit of its own, so exceeding
any finite budget (result `none`) exhibits a deeper real recursion. -/
def drawCFFFrom (env : CffEnv) (depth : Nat) (cs : List Nat) (st : PenState) (i : Nat) :
    Option PenState :=
  if hi : i < cs.length then
    match hs : stepCFF env cs i st with
    | StepResult.ret st' => some st'
    | StepResult.next st' j => drawCFFFrom env depth cs st' j
    | StepResult.call bytes st' j =>
      match depth with
      | 0 => none
      | d + 1 =>
        match drawCFFFrom env d bytes st' 0 with
        | none => none
        | some st2 => drawCFFFrom env (d + 1) cs st2 j
  else
    some st
  termination_by (depth, cs.length - i)
  decreasing_by
  · have := (stepCFF_next_gt env cs i st).1 st' j hs
    apply Prod.Lex.right
    omega
  · apply Prod.Lex.left
    omega
  · have := (stepCFF_next_gt env cs i st).2 bytes st' j hs
    apply Prod.Lex.right
    omega

/-- `drawCFF(charString, state)`: interpret a CharString from position
0 with a nested-call budget of `depth`. -/
def drawCFF (env : CffEnv) (depth : Nat) (cs : List Nat) (st : PenState) : Option PenState :=
  drawCFFFrom env depth cs st 0

/-- The initial interpreter state built by `parseCFFGlyph` (source
lines 1321–1331). -/
def initPen : PenState :=
  { stack := [], x := 0, y := 0, nStems := 0, haveWidth := false, width := 0,
    pathOpen := false, path := [] }

/-! ### Unfolding lemmas for the interpreter -/

/-- A `next` step advances the interpretation. -/
theorem drawCFFFrom_next (env : CffEnv) (depth : Nat) (cs : List Nat) (st : PenState)
    (i : Nat) (st' : PenState) (j : Nat) (hi : i < cs.length)
    (hs : stepCFF env cs i st = StepResult.next st' j) :
    drawCFFFrom env depth cs st i = drawCFFFrom env depth cs st' j := by
  conv_lhs => rw [drawCFFFrom.eq_def]
  rw [dif_pos hi]
  split
  · rename_i st2 heq
    rw [hs] at heq
    cases heq
  · rename_i st2 j2 heq
    rw [hs] at heq
    cases heq
    rfl
  · rename_i bs st2 j2 heq
    rw [hs] at heq
    cases heq

/-- An in-range subroutine call with no remaining depth budget: the
modelled interpretation cannot complete. -/
theorem drawCFFFrom_call_zero (env : CffEnv) (cs : List Nat) (st : PenState)
    (i : Nat) (bs : List Nat) (st' : PenState) (j : Nat) (hi : i < cs.length)
    (hs : stepCFF env cs i st = StepResult.call bs st' j) :
    drawCFFFrom env 0 cs st i = none := by
  rw [drawCFFFrom.eq_def]
  rw [dif_pos hi]
  split
  · rename_i st2 heq
    rw [hs] at heq
    cases heq
  · rename_i st2 j2 heq
    rw [hs] at heq
    cases heq
  · rename_i bs2 st2 j2 heq
    rw [hs] at heq

/-- An in-range subroutine call with remaining budget `d + 1`:
interpret the subroutine at budget `d`, then continue. -/
theorem drawCFFFrom_call_succ (env : CffEnv) (d : Nat) (cs : List Nat) (st : PenState)
    (i : Nat) (bs : List Nat) (st' : PenState) (j : Nat) (hi : i < cs.length)
    (hs : stepCFF env cs i st = StepResult.call bs st' j) :
    drawCFFFrom env (d + 1) cs st i =
      match drawCFFFrom env d bs st' 0 with
      | none => none
      | some st2 => drawCFFFrom env (d + 1) cs st2 j := by
  conv_lhs => rw [drawCFFFrom.eq_def]
  rw [dif_pos hi]
  split
  · rename_i st2 heq
    rw [hs] at heq
    cases heq
  · rename_i st2 j2 heq
    rw [hs] at heq
    cases heq
  · rename_i bs2 st2 j2 heq
    rw [hs] at heq
    cases heq
    rfl

/-! ### CFF path-command to glyph conversion -/

/-- The coordinates a path command contributes to the CFF glyph bounds
scan (source lines 1637–1661). -/
def cffCmdPoints : CffCmd → List (ℚ × ℚ)
  | CffCmd.moveto x y => [(x, y)]
  | CffCmd.lineto x y => [(x, y)]
  | CffCmd.curveto x1 y1 x2 y2 x3 y3 => [(x1, y1), (x2, y2), (x3, y3)]
  | CffCmd.closepath => []

/-- One step of the contour-building loop of `cffPathToGlyph` (source
lines 1630–1666): `moveto` closes a nonempty current contour and starts
a new one at an on-curve point, `lineto` appends an on-curve point,
`curveto` appends an on-curve endpoint carrying its cubic controls, and
`closepath` pushes a nonempty current contour. -/
def cffContoursStep (acc : List (List Pt) × List Pt) (cmd : CffCmd) :
    List (List Pt) × List Pt :=
  match cmd with
  | CffCmd.moveto x y =>
    if acc.2 = [] then (acc.1, [⟨x, y, true, false, 0, 0, 0, 0⟩])
    else (acc.1 ++ [acc.2], [⟨x, y, true, false, 0, 0, 0, 0⟩])
  | CffCmd.lineto x y => (acc.1, acc.2 ++ [⟨x, y, true, false, 0, 0, 0, 0⟩])
  | CffCmd.curveto x1 y1 x2 y2 x3 y3 =>
    (acc.1, acc.2 ++ [⟨x3, y3, true, true, x1, y1, x2, y2⟩])
  | CffCmd.closepath =>
    if acc.2 = [] then acc else (acc.1 ++ [acc.2], [])

/-- `cffPathToGlyph(pathCommands)` (source lines 1620–1678): null for
an empty command list; otherwise the contours built by the loop (with a
trailing nonempty contour pushed) and the bounding box over every
on-curve and control point. -/
def cffPathToGlyph (pathCommands : List CffCmd) : Option Glyph :=
  match pathCommands with
  | [] => none
  | _ =>
    let r := pathCommands.foldl cffContoursStep ([], [])
    let contours := if r.2 = [] then r.1 else r.1 ++ [r.2]
    match (pathCommands.map cffCmdPoints).flatten with
    | [] => some { contours := contours, xMin := 0, yMin := 0, xMax := 0, yMax := 0 }
    | c :: cs =>
      let b := cs.foldl
        (fun b q =>
          (⟨min b.xMin q.1, min b.yMin q.2, max b.xMax q.1, max b.yMax q.2⟩ : GBounds))
        ⟨c.1, c.2, c.1, c.2⟩
      some { contours := contours, xMin := b.xMin, yMin := b.yMin,
             xMax := b.xMax, yMax := b.yMax }

/-- The contour-building loop only ever pushes nonempty contours. -/
theorem cffContoursStep_ne_nil (cmds : List CffCmd) :
    ∀ (acc : List (List Pt) × List Pt), (∀ c ∈ acc.1, c ≠ []) →
      ∀ c ∈ (cmds.foldl cffContoursStep acc).1, c ≠ [] := by
  induction cmds with
  | nil => intro acc hacc; exact hacc
  | cons cmd rest ih =>
    intro acc hacc
    rw [List.foldl_cons]
    refine ih (cffContoursStep acc cmd) ?_
    intro c hc
    unfold cffContoursStep at hc
    split at hc
    · split at hc
      · exact hacc c hc
      · rename_i hcur
        rcases List.mem_append.mp hc with hc1 | hc1
        · exact hacc c hc1
        · rw [List.mem_singleton] at hc1
          subst hc1
          exact hcur
    · exact hacc c hc
    · exact hacc c hc
    · split at hc
      · exact hacc c hc
      · rename_i hcur
        rcases List.mem_append.mp hc with hc1 | hc1
        · exact hacc c hc1
        · rw [List.mem_singleton] at hc1
          subst hc1
          exact hcur

/-- Every contour of a glyph produced by `cffPathToGlyph` is
nonempty. -/
theorem cffPathToGlyph_contours_ne_nil (pathCommands : List CffCmd) (g : Glyph)
    (hg : cffPathToGlyph pathCommands = some g) : ∀ c ∈ g.contours, c ≠ [] := by
  unfold cffPathToGlyph at hg
  have hfold := cffContoursStep_ne_nil pathCommands ([], []) (by intro c hc; cases hc)
  split at hg
  · cases hg
  · split at hg <;>
      · cases hg
        intro c hc
        dsimp only at hc
        split at hc
        · exact hfold _ hc
        · rename_i hcur
          rcases List.mem_append.mp hc with hc1 | hc1
          · exact hfold _ hc1
          · rw [List.mem_singleton] at hc1
            subst hc1
            exact hcur

/-! ### Helper lemmas: association lists -/

/-- The value of the last binding of `tag` in an entry list (for a JS
object argument, keys are unique, so this is the binding itself). -/
def lastBinding : List (String × ℚ) → String → Option ℚ
  | [], _ => none
  | e :: rest, tag =>
    match lastBinding rest tag with
    | some v => some v
    | none => if e.1 == tag then some e.2 else none

theorem lookupVal_setVal_self (m : List (String × ℚ)) (tag : String) (v : ℚ) :
    lookupVal (setVal m tag v) tag = some v := by
  induction m with
  | nil => simp [setVal, lookupVal, List.find?]
  | cons e rest ih =>
    rw [setVal]
    split
    · simp [lookupVal, List.find?]
    · rename_i he
      have he' : (e.1 == tag) = false := by simpa using he
      simp only [lookupVal, List.find?, he'] at *
      exact ih

theorem lookupVal_setVal_ne (m : List (String × ℚ)) (t tag : String) (v : ℚ)
    (h : t ≠ tag) : lookupVal (setVal m t v) tag = lookupVal m tag := by
  have ht : (t == tag) = false := by simpa using h
  induction m with
  | nil => simp [setVal, lookupVal, List.find?, ht]
  | cons e rest ih =>
    rw [setVal]
    split
    · rename_i he
      have he' : e.1 = t := by simpa using he
      simp only [lookupVal, List.find?, ht, he']
    · rename_i he
      by_cases hme : (e.1 == tag) = true
      · simp only [lookupVal, List.find?, hme]
      · have hme' : (e.1 == tag) = false := by simpa using hme
        simp only [lookupVal, List.find?, hme'] at *
        exact ih

theorem getOrDefault_setVal_ne (m : List (String × ℚ)) (t tag : String) (v dflt : ℚ)
    (h : t ≠ tag) : getOrDefault (setVal m t v) tag dflt = getOrDefault m tag dflt := by
  unfold getOrDefault
  rw [lookupVal_setVal_ne m t tag v h]

/-- What the `setVariation` entry loop leaves at key `tag`: the clamp
of the last binding for `tag` when that tag names a parsed axis, the
prior value otherwise. -/
theorem setVariation_foldl_lookup (axes : List VariationAxis) (avs : List (String × ℚ))
    (m : List (String × ℚ)) (tag : String) :
    lookupVal (avs.foldl (fun acc e =>
        match findAxis axes e.1 with
        | some axis => setVal acc e.1 (max axis.min (min axis.max e.2))
        | none => acc) m) tag =
      match lastBinding avs tag, findAxis axes tag with
      | some v, some axis => some (max axis.min (min axis.max v))
      | some _, none => lookupVal m tag
      | none, _ => lookupVal m tag := by
  induction avs generalizing m with
  | nil => cases hfa : findAxis axes tag <;> simp [lastBinding]
  | cons e rest ih =>
    rw [List.foldl_cons, ih]
    rcases hlb : lastBinding rest tag with _ | v
    · rw [lastBinding, hlb]
      by_cases he : (e.1 == tag) = true
      · have he' : e.1 = tag := by simpa using he
        rw [if_pos he]
        rcases hfa : findAxis axes tag with _ | axis
        · subst he'
          rw [hfa]
        · subst he'
          rw [hfa, lookupVal_setVal_self]
      · have he' : e.1 ≠ tag := by simpa using he
        rw [if_neg he]
        rcases hfa : findAxis axes e.1 with _ | axisE
        · rfl
        · rcases hfa2 : findAxis axes tag with _ | axis
          · exact lookupVal_setVal_ne _ _ _ _ he'
          · exact lookupVal_setVal_ne _ _ _ _ he'
    · rw [lastBinding, hlb]
      rcases hfa : findAxis axes tag with _ | axis
      · rcases hfe : findAxis axes e.1 with _ | axisE
        · rfl
        · have he' : e.1 ≠ tag := by
            intro hcontra
            rw [hcontra, hfa] at hfe
            cases hfe
          exact lookupVal_setVal_ne _ _ _ _ he'
      · rfl

/-! ### Helper lemmas: path emission -/

/-- Every command produced by the emission loop is a line, quadratic,
or cubic command — never `M`, never `Z`. -/
theorem contourWalk_cmds (scale : ℚ) (flipY : Bool) (ox oy : ℚ) :
    ∀ (fuel : Nat) (pts : List Pt) (i : Nat) (c : SVGCmd),
      c ∈ contourWalk scale flipY ox oy fuel pts i →
      (∃ x y, c = SVGCmd.L x y) ∨ (∃ a b x y, c = SVGCmd.Q a b x y) ∨
        (∃ a b d e x y, c = SVGCmd.C a b d e x y) := by
  intro fuel
  induction fuel with
  | zero => intro pts i c hc; simp [contourWalk] at hc
  | succ n ih =>
    intro pts i c hc
    rw [contourWalk] at hc
    by_cases hi : i < pts.length
    · rw [if_pos hi] at hc
      dsimp only at hc
      split at hc
      · rcases List.mem_cons.mp hc with hcg | hcg
        · split at hcg
          · subst hcg
            right; right; exact ⟨_, _, _, _, _, _, rfl⟩
          · subst hcg
            left; exact ⟨_, _, rfl⟩
        · exact ih pts (i + 1) c hcg
      · split at hc
        · rcases List.mem_cons.mp hc with hcg | hcg
          · subst hcg
            right; left; exact ⟨_, _, _, _, rfl⟩
          · exact ih pts (i + 2) c hcg
        · rcases List.mem_cons.mp hc with hcg | hcg
          · subst hcg
            right; left; exact ⟨_, _, _, _, rfl⟩
          · exact ih pts (i + 1) c hcg
    · rw [if_neg hi] at hc
      simp at hc

theorem contourWalk_countM (scale : ℚ) (flipY : Bool) (ox oy : ℚ)
    (fuel : Nat) (pts : List Pt) (i : Nat) :
    countM (contourWalk scale flipY ox oy fuel pts i) = 0 := by
  rw [countM, List.countP_eq_zero]
  intro c hc
  rcases contourWalk_cmds scale flipY ox oy fuel pts i c hc with ⟨x, y, rfl⟩ | ⟨a, b, x, y, rfl⟩ |
    ⟨a, b, d, e, x, y, rfl⟩ <;> simp

theorem contourWalk_countZ (scale : ℚ) (flipY : Bool) (ox oy : ℚ)
    (fuel : Nat) (pts : List Pt) (i : Nat) :
    countZ (contourWalk scale flipY ox oy fuel pts i) = 0 := by
  rw [countZ, List.countP_eq_zero]
  intro c hc
  rcases contourWalk_cmds scale flipY ox oy fuel pts i c hc with ⟨x, y, rfl⟩ | ⟨a, b, x, y, rfl⟩ |
    ⟨a, b, d, e, x, y, rfl⟩ <;> simp

/-- A nonempty contour's emitted command list is one `M`, then
`L`/`Q`/`C` commands only, then one closing `Z`. -/
theorem contourToSVGPath_shape (c : List Pt) (scale : ℚ) (flipY : Bool) (ox oy : ℚ)
    (hc : c ≠ []) :
    ∃ p q mid, contourToSVGPath c scale flipY ox oy = SVGCmd.M p q :: (mid ++ [SVGCmd.Z]) ∧
      countM mid = 0 ∧ countZ mid = 0 := by
  obtain ⟨hd, tl, rfl⟩ := List.exists_cons_of_ne_nil hc
  exact ⟨_, _, _, rfl, contourWalk_countM _ _ _ _ _ _ _, contourWalk_countZ _ _ _ _ _ _ _⟩

theorem contourToSVGPath_countM (c : List Pt) (scale : ℚ) (flipY : Bool) (ox oy : ℚ)
    (hc : c ≠ []) : countM (contourToSVGPath c scale flipY ox oy) = 1 := by
  obtain ⟨p, q, mid, heq, hm1, _⟩ := contourToSVGPath_shape c scale flipY ox oy hc
  simp only [countM] at hm1 ⊢
  rw [heq]
  simp [List.countP_cons, List.countP_append, hm1]

theorem contourToSVGPath_countZ (c : List Pt) (scale : ℚ) (flipY : Bool) (ox oy : ℚ)
    (hc : c ≠ []) : countZ (contourToSVGPath c scale flipY ox oy) = 1 := by
  obtain ⟨p, q, mid, heq, _, hz⟩ := contourToSVGPath_shape c scale flipY ox oy hc
  simp only [countZ] at hz ⊢
  rw [heq]
  simp [List.countP_cons, List.countP_append, hz]

/-! ### Helper lemmas: the self-referential subroutine -/

theorem popBack_append (s : List ℚ) (a : ℚ) : popBack (s ++ [a]) = (a, s) := by
  induction s with
  | nil => rfl
  | cons x rest ih =>
    cases rest with
    | nil => rfl
    | cons y ys =>
      simp only [List.cons_append] at *
      rw [popBack, ih]

/-- A parsed-CFF environment whose single local subroutine is the
CharString `[32, 10]` — push −107, callsubr — so that the biased call
target (−107 + 107) is the subroutine itself.  Local subroutines and
bias are exactly what `parsePrivateDict` produces for this table. -/
def selfRefEnv : CffEnv :=
  { cffLocalSubrs := (localSubrsAndBias (some [[32, 10]])).1
    cffGlobalSubrs := []
    cffLocalBias := (localSubrsAndBias (some [[32, 10]])).2
    cffGlobalBias := computeBias 0
    nominalWidthX := 0 }

/-- Byte 0 of `[32, 10]` pushes the operand −107. -/
theorem selfRef_step0 (st : PenState) :
    stepCFF selfRefEnv [32, 10] 0 st
      = StepResult.next { st with stack := st.stack ++ [(-107 : ℚ)] } 1 := by
  unfold stepCFF
  norm_num [readCharStringOperand]

/-- Byte 1 of `[32, 10]` is callsubr: −107 is popped, biased by 107,
and subroutine 0 — `[32, 10]` itself — is called. -/
theorem selfRef_step1 (st : PenState) (s : List ℚ) (hst : st.stack = s ++ [(-107 : ℚ)]) :
    stepCFF selfRefEnv [32, 10] 1 st = StepResult.call [32, 10] { st with stack := s } 2 := by
  unfold stepCFF
  norm_num
  unfold callsubrStep
  rw [hst]
  simp only [popBack_append]
  norm_num [subrTable, subrStoredBias, selfRefEnv, localSubrsAndBias, computeBias,
    callTargetIndex, effBias, jsRound]
  have hne : (s ++ [(-107 : ℚ)]).isEmpty = false := by cases s <;> rfl
  rw [hne]

/-- Interpreting `[32, 10]` in `selfRefEnv` recurses into itself with
an unchanged state: no finite nested-call budget completes it. -/
theorem selfRef_loop (d : Nat) :
    ∀ st : PenState, drawCFFFrom selfRefEnv d [32, 10] st 0 = none := by
  induction d with
  | zero =>
    intro st
    rw [drawCFFFrom_next selfRefEnv 0 [32, 10] st 0 _ 1 (by norm_num) (selfRef_step0 st)]
    exact drawCFFFrom_call_zero selfRefEnv [32, 10] _ 1 [32, 10] _ 2 (by norm_num)
      (selfRef_step1 _ st.stack rfl)
  | succ e ih =>
    intro st
    rw [drawCFFFrom_next selfRefEnv (e + 1) [32, 10] st 0 _ 1 (by norm_num) (selfRef_step0 st)]
    rw [drawCFFFrom_call_succ selfRefEnv e [32, 10] _ 1 [32, 10] _ 2 (by norm_num)
      (selfRef_step1 _ st.stack rfl)]
    rw [ih]

/-! ### Claim theorems -/

/-- Claim C1, counterexample: with a glyph whose hmtx entry is
`{600, 50}`, two variable-font states differing only in the current
`wght` value (150 vs. 2150) yield identical metrics from
`getGlyphMetrics` — the returned advance width does not depend on
`wght`, although the claimed weight factor `1 + (wght − 150)/2000` at
`wght = 2150` would scale 600 to 1200. -/
theorem c1_counterexample :
    getGlyphMetrics ⟨1000, [⟨600, 50⟩], true, [], [("wght", 150)], []⟩ 0 = ⟨600, 50⟩ ∧
    getGlyphMetrics ⟨1000, [⟨600, 50⟩], true, [], [("wght", 2150)], []⟩ 0 = ⟨600, 50⟩ ∧
    (600 : ℚ) * (1 + ((2150 : ℚ) - 150) / 2000) ≠ 600 := by
  refine ⟨?_, ?_, by norm_num⟩ <;>
    simp [getGlyphMetrics, getOrDefault, lookupVal, List.find?, List.getD]

/-- Claim C1, amended: for every variable font and glyph index within
the hmtx table, `getGlyphMetrics` scales both advance width and left
side bearing by `widthFactor = wdth/100` only; the weight factor
`1 + (wght − 150)/2000` is computed but never applied, so the returned
metrics are unchanged under any update of the `wght` axis value. -/
theorem c1_theorem (st : FontState) (gid : Nat) (w : ℚ)
    (hvar : st.isVariableFont = true) (hlen : gid < st.horizontalMetrics.length) :
    getGlyphMetrics st gid =
      { advanceWidth := (st.horizontalMetrics.getD gid ⟨0, 0⟩).advanceWidth *
          (getOrDefault st.currentAxisValues "wdth" 100 / 100)
        leftSideBearing := (st.horizontalMetrics.getD gid ⟨0, 0⟩).leftSideBearing *
          (getOrDefault st.currentAxisValues "wdth" 100 / 100) } ∧
    getGlyphMetrics { st with currentAxisValues := setVal st.currentAxisValues "wght" w } gid
      = getGlyphMetrics st gid := by
  have hnot : ¬ gid ≥ st.horizontalMetrics.length := by omega
  constructor
  · unfold getGlyphMetrics
    rw [if_neg hnot, if_pos hvar]
  · unfold getGlyphMetrics
    rw [getOrDefault_setVal_ne st.currentAxisValues "wght" "wdth" w 100 (by decide)]

/-- Claim C1, witness: a concrete variable-font state at which the
amended claim evaluates. -/
theorem c1_witness :
    ((⟨1000, [⟨600, 50⟩], true, [], [("wdth", 200)], []⟩ : FontState).isVariableFont = true ∧
      0 < (⟨1000, [⟨600, 50⟩], true, [], [("wdth", 200)], []⟩ :
        FontState).horizontalMetrics.length) ∧
    (getGlyphMetrics (⟨1000, [⟨600, 50⟩], true, [], [("wdth", 200)], []⟩ : FontState) 0 =
      { advanceWidth := ((⟨1000, [⟨600, 50⟩], true, [], [("wdth", 200)], []⟩ :
            FontState).horizontalMetrics.getD 0 ⟨0, 0⟩).advanceWidth *
          (getOrDefault [("wdth", 200)] "wdth" 100 / 100)
        leftSideBearing := ((⟨1000, [⟨600, 50⟩], true, [], [("wdth", 200)], []⟩ :
            FontState).horizontalMetrics.getD 0 ⟨0, 0⟩).leftSideBearing *
          (getOrDefault [("wdth", 200)] "wdth" 100 / 100) } ∧
    getGlyphMetrics { (⟨1000, [⟨600, 50⟩], true, [], [("wdth", 200)], []⟩ : FontState) with
        currentAxisValues := setVal [("wdth", 200)] "wght" 900 } 0
      = getGlyphMetrics (⟨1000, [⟨600, 50⟩], true, [], [("wdth", 200)], []⟩ : FontState) 0) :=
  ⟨⟨rfl, by decide⟩, c1_theorem _ 0 900 rfl (by decide)⟩

/-- `glyphToSVGPath` emits one `M` per nonempty contour. -/
theorem glyphToSVGPath_countM (contours : List (List Pt)) (scale : ℚ) (flipY : Bool)
    (ox oy : ℚ) (h : ∀ c ∈ contours, c ≠ []) :
    countM (glyphToSVGPath contours scale flipY ox oy) = contours.length := by
  induction contours with
  | nil => simp [glyphToSVGPath, countM]
  | cons c rest ih =>
    have hc : c ≠ [] := h c (List.mem_cons_self c rest)
    have hrest : ∀ x ∈ rest, x ≠ [] := fun x hx => h x (List.mem_cons_of_mem c hx)
    have hcons : glyphToSVGPath (c :: rest) scale flipY ox oy =
        contourToSVGPath c scale flipY ox oy ++ glyphToSVGPath rest scale flipY ox oy := rfl
    rw [hcons, countM, List.countP_append]
    have h1 := contourToSVGPath_countM c scale flipY ox oy hc
    have h2 := ih hrest
    rw [countM] at h1 h2
    rw [h1, h2, List.length_cons]
    omega

/-- `glyphToSVGPath` emits one `Z` per nonempty contour. -/
theorem glyphToSVGPath_countZ (contours : List (List Pt)) (scale : ℚ) (flipY : Bool)
    (ox oy : ℚ) (h : ∀ c ∈ contours, c ≠ []) :
    countZ (glyphToSVGPath contours scale flipY ox oy) = contours.length := by
  induction contours with
  | nil => simp [glyphToSVGPath, countZ]
  | cons c rest ih =>
    have hc : c ≠ [] := h c (List.mem_cons_self c rest)
    have hrest : ∀ x ∈ rest, x ≠ [] := fun x hx => h x (List.mem_cons_of_mem c hx)
    have hcons : glyphToSVGPath (c :: rest) scale flipY ox oy =
        contourToSVGPath c scale flipY ox oy ++ glyphToSVGPath rest scale flipY ox oy := rfl
    rw [hcons, countZ, List.countP_append]
    have h1 := contourToSVGPath_countZ c scale flipY ox oy hc
    have h2 := ih hrest
    rw [countZ] at h1 h2
    rw [h1, h2, List.length_cons]
    omega

/-- Claim C2: for a decoded glyph all of whose contours are nonempty
(the data-model invariant; glyphs converted from CFF path commands by
`cffPathToGlyph` always satisfy it, as the last conjunct states
unconditionally), the command list emitted by `glyphToSVGPath` contains
exactly one `M` and one `Z` per contour, and each contour's emitted
command subsequence is its single `M`, then line/curve commands only,
then the closing `Z`. -/
theorem c2_theorem (contours : List (List Pt)) (scale : ℚ) (flipY : Bool) (ox oy : ℚ)
    (h : ∀ c ∈ contours, c ≠ []) :
    countM (glyphToSVGPath contours scale flipY ox oy) = contours.length ∧
    countZ (glyphToSVGPath contours scale flipY ox oy) = contours.length ∧
    (∀ c ∈ contours, ∃ p q mid,
      contourToSVGPath c scale flipY ox oy = SVGCmd.M p q :: (mid ++ [SVGCmd.Z]) ∧
      countM mid = 0 ∧ countZ mid = 0) ∧
    ∀ (cmds : List CffCmd) (g : Glyph), cffPathToGlyph cmds = some g →
      countM (glyphToSVGPath g.contours scale flipY ox oy) = g.contours.length ∧
      countZ (glyphToSVGPath g.contours scale flipY ox oy) = g.contours.length :=
  ⟨glyphToSVGPath_countM contours scale flipY ox oy h,
   glyphToSVGPath_countZ contours scale flipY ox oy h,
   fun c hc => contourToSVGPath_shape c scale flipY ox oy (h c hc),
   fun cmds g hg =>
     ⟨glyphToSVGPath_countM g.contours scale flipY ox oy
        (cffPathToGlyph_contours_ne_nil cmds g hg),
      glyphToSVGPath_countZ g.contours scale flipY ox oy
        (cffPathToGlyph_contours_ne_nil cmds g hg)⟩⟩

/-- Claim C2, witness: a one-contour glyph with a single on-curve
point. -/
theorem c2_witness :
    (∀ c ∈ [[(⟨0, 0, true, false, 0, 0, 0, 0⟩ : Pt)]], c ≠ []) ∧
    (countM (glyphToSVGPath [[(⟨0, 0, true, false, 0, 0, 0, 0⟩ : Pt)]] 1 true 0 0) = 1 ∧
     countZ (glyphToSVGPath [[(⟨0, 0, true, false, 0, 0, 0, 0⟩ : Pt)]] 1 true 0 0) = 1 ∧
     (∀ c ∈ [[(⟨0, 0, true, false, 0, 0, 0, 0⟩ : Pt)]], ∃ p q mid,
       contourToSVGPath c 1 true 0 0 = SVGCmd.M p q :: (mid ++ [SVGCmd.Z]) ∧
       countM mid = 0 ∧ countZ mid = 0) ∧
     ∀ (cmds : List CffCmd) (g : Glyph), cffPathToGlyph cmds = some g →
       countM (glyphToSVGPath g.contours 1 true 0 0) = g.contours.length ∧
       countZ (glyphToSVGPath g.contours 1 true 0 0) = g.contours.length) :=
  ⟨by decide, c2_theorem [[(⟨0, 0, true, false, 0, 0, 0, 0⟩ : Pt)]] 1 true 0 0 (by decide)⟩

/-- Claim C3, counterexample: the format-12 decoder stores the glyph
index `startGlyphID + (c − startCharCode)` unconditionally; a group
with `startGlyphID = 0` stores a mapping to glyph index 0 (here
65 ↦ 0). -/
theorem c3_counterexample :
    (65, 0) ∈ cmapFormat12Pairs [⟨65, 65, 0⟩] ∧
    charMapGet (buildCharToGlyph (cmapFormat12Pairs [⟨65, 65, 0⟩])) 65 = some 0 := by
  decide

/-- Claim C3, amended: every (code point, glyph index) pair stored by
the format-4 segment loop has a nonzero glyph index; the format-12
decoder stores its computed index unconditionally and can store 0 (see
the counterexample). -/
theorem c3_theorem (segs : List Format4Seg) (iros : Nat) (readU16 : Nat → Nat)
    (c g : Nat) (h : (c, g) ∈ cmapFormat4Pairs segs iros readU16) : g ≠ 0 := by
  unfold cmapFormat4Pairs at h
  simp only [List.mem_flatMap, List.mem_filterMap] at h
  obtain ⟨ie, hie, cc, hcc, hsome⟩ := h
  split at hsome
  · rename_i hne
    cases hsome
    exact hne
  · cases hsome

/-- Claim C3, witness: the format-4 single segment mapping 65 ↦ 65. -/
theorem c3_witness :
    ((65, 65) ∈ cmapFormat4Pairs [⟨65, 65, 0, 0⟩] 0 (fun _ => 0)) ∧ (65 : Nat) ≠ 0 :=
  ⟨by decide, c3_theorem [⟨65, 65, 0, 0⟩] 0 (fun _ => 0) 65 65 (by decide)⟩

/-- Claim C4: decoding an operand with prefix byte 28 yields the
*unsigned* 16-bit combination of the next two bytes: on `[28, 0x80,
0x00]` both the DICT and the CharString decoder return +32768 — never a
negative value — where the claim (and the CFF specification) require
the signed interpretation −32768. -/
theorem c4_theorem :
    readDictOperand [28, 128, 0] 0 = (32768, 3) ∧
    readCharStringOperand [28, 128, 0] 0 = ((32768 : ℚ), 3) ∧
    0 ≤ (readDictOperand [28, 128, 0] 0).1 := by
  refine ⟨by decide, ?_, by decide⟩
  norm_num [readCharStringOperand, Nat.shiftLeft_eq]

/-- Claim C5: for a variable font, after `setVariation` the stored
value of an axis named by the argument map equals
`max(axis.min, min(axis.max, v))` where `v` is the (last) value bound
to that tag in the map. -/
theorem c5_theorem (st : FontState) (avs : List (String × ℚ)) (tag : String) (v : ℚ)
    (axis : VariationAxis) (hvar : st.isVariableFont = true)
    (haxis : findAxis st.variationAxes tag = some axis)
    (hlast : lastBinding avs tag = some v) :
    lookupVal (setVariation st avs).currentAxisValues tag
      = some (max axis.min (min axis.max v)) := by
  unfold setVariation
  rw [if_pos hvar]
  rw [setVariation_foldl_lookup st.variationAxes avs st.currentAxisValues tag, hlast, haxis]

/-- Claim C5, witness: a `wght` axis `[100, 900]` set to 1000 stores
the clamped value `max 100 (min 900 1000) = 900`. -/
theorem c5_witness :
    ((⟨1000, [], true, [⟨"wght", 100, 400, 900⟩], [("wght", 400)], []⟩ :
        FontState).isVariableFont = true ∧
      findAxis (⟨1000, [], true, [⟨"wght", 100, 400, 900⟩], [("wght", 400)], []⟩ :
        FontState).variationAxes "wght" = some ⟨"wght", 100, 400, 900⟩ ∧
      lastBinding [("wght", 1000)] "wght" = some 1000) ∧
    lookupVal (setVariation
        (⟨1000, [], true, [⟨"wght", 100, 400, 900⟩], [("wght", 400)], []⟩ : FontState)
        [("wght", 1000)]).currentAxisValues "wght"
      = some (max (100 : ℚ) (min 900 1000)) :=
  ⟨⟨rfl, by simp [findAxis, List.find?], by simp [lastBinding]⟩,
    c5_theorem ⟨1000, [], true, [⟨"wght", 100, 400, 900⟩], [("wght", 400)], []⟩
      [("wght", 1000)] "wght" 1000 ⟨"wght", 100, 400, 900⟩ rfl
      (by simp [findAxis, List.find?]) (by simp [lastBinding])⟩

/-- Claim C6: the subroutine bias used at every callsubr/callgsubr is
`computeBias` of the corresponding table's entry count — 107 below
1240 entries, 1131 below 33900, 32768 otherwise — and the table is
indexed at the rounded popped operand plus that bias
(`callTargetIndex`), both for the local table as left by
`parsePrivateDict` (including the no-Subrs case, where the stored 0 is
promoted to 107 by `bias || 107`) and for the global table. -/
theorem c6_theorem (loaded : Option (List (List Nat))) (gsubrs : List (List Nat))
    (v : ℚ) (n : Nat) :
    effBias (localSubrsAndBias loaded).2 = computeBias (localSubrsAndBias loaded).1.length ∧
    effBias (computeBias gsubrs.length) = computeBias gsubrs.length ∧
    callTargetIndex (localSubrsAndBias loaded).2 v
      = jsRound v + computeBias (localSubrsAndBias loaded).1.length ∧
    callTargetIndex (computeBias gsubrs.length) v = jsRound v + computeBias gsubrs.length ∧
    (n < 1240 → computeBias n = 107) ∧
    (1240 ≤ n → n < 33900 → computeBias n = 1131) ∧
    (33900 ≤ n → computeBias n = 32768) := by
  have hcb : ∀ m : Nat, computeBias m ≠ 0 := by
    intro m
    unfold computeBias
    split_ifs <;> norm_num
  have heff : ∀ m : Nat, effBias (computeBias m) = computeBias m := by
    intro m
    unfold effBias
    rw [if_neg (hcb m)]
  have hloc : effBias (localSubrsAndBias loaded).2
      = computeBias (localSubrsAndBias loaded).1.length := by
    cases loaded with
    | none => simp [localSubrsAndBias, effBias, computeBias]
    | some subrs => exact heff _
  refine ⟨hloc, heff _, ?_, ?_, ?_, ?_, ?_⟩
  · unfold callTargetIndex
    rw [hloc]
  · unfold callTargetIndex
    rw [heff]
  · intro h1
    unfold computeBias
    rw [if_pos h1]
  · intro h1 h2
    unfold computeBias
    rw [if_neg (by omega), if_pos h2]
  · intro h1
    unfold computeBias
    rw [if_neg (by omega), if_neg (by omega)]

/-- Claim C6, witness: a one-entry local table (bias 107), a two-entry
global table, and the thresholds evaluated at `n = 2000`. -/
theorem c6_witness :
    effBias (localSubrsAndBias (some [[14]])).2
      = computeBias (localSubrsAndBias (some [[14]])).1.length ∧
    effBias (computeBias ([[14], [14]] : List (List Nat)).length)
      = computeBias ([[14], [14]] : List (List Nat)).length ∧
    callTargetIndex (localSubrsAndBias (some [[14]])).2 (-107)
      = jsRound (-107) + computeBias (localSubrsAndBias (some [[14]])).1.length ∧
    callTargetIndex (computeBias ([[14], [14]] : List (List Nat)).length) (-107)
      = jsRound (-107) + computeBias ([[14], [14]] : List (List Nat)).length ∧
    (2000 < 1240 → computeBias 2000 = 107) ∧
    (1240 ≤ 2000 → 2000 < 33900 → computeBias 2000 = 1131) ∧
    (33900 ≤ 2000 → computeBias 2000 = 32768) :=
  c6_theorem (some [[14]]) [[14], [14]] (-107) 2000

/-- Claim C7: a composite component with the identity transform matrix
and zero offset appends contours exactly equal to those obtained by
decoding the referenced component glyph directly. -/
theorem c7_theorem (acc base : List (List Pt)) :
    appendComponentContours acc base 1 0 0 1 0 0 = acc ++ base := by
  have hpt : ∀ pt : Pt, transformComponentPoint 1 0 0 1 0 0 pt = pt := by
    intro pt
    unfold transformComponentPoint
    cases pt
    simp only [Pt.mk.injEq, and_true, true_and]
    constructor <;> ring
  unfold appendComponentContours
  rw [funext hpt]
  simp

/-- Claim C8, counterexample: the interpreter imposes no
recursion-depth ceiling and has no RecursionLimitExceeded outcome; on
the self-referential CharString `[32, 10]` (push −107, callsubr) no
finite nested-call budget lets interpretation complete — it recurses
without bound instead of failing after a bounded number of nested
calls. -/
theorem c8_counterexample :
    ¬ ∃ (depth : Nat) (stFin : PenState),
        drawCFF selfRefEnv depth [32, 10] initPen = some stFin := by
  rintro ⟨depth, stFin, h⟩
  unfold drawCFF at h
  rw [selfRef_loop depth initPen] at h
  cases h

/-- Claim C8, amended: interpretation of the self-referential
CharString exceeds every finite nested-call budget (the JS source
recurses unboundedly until the host stack overflows, which is caught as
a generic per-glyph failure, not a RecursionLimitExceeded
condition). -/
theorem c8_theorem (depth : Nat) (st : PenState) :
    drawCFF selfRefEnv depth [32, 10] st = none := by
  unfold drawCFF
  exact selfRef_loop depth st

/-- Claim C9, counterexample: the single format-4 segment
`{startCode 65, endCode 65, idDelta 0, idRangeOffset 0}` does not
resolve code point 65 to glyph 36. -/
theorem c9_counterexample :
    getGlyphId (buildCharToGlyph (cmapFormat4Pairs [⟨65, 65, 0, 0⟩] 0 (fun _ => 0))) 65
      ≠ 36 := by
  decide

/-- Claim C9, amended: with that segment, the raw lookup is
`(65 + 0) & 0xFFFF = 65`, so `getGlyphId` resolves code point 65 to
glyph index 65. -/
theorem c9_theorem :
    getGlyphId (buildCharToGlyph (cmapFormat4Pairs [⟨65, 65, 0, 0⟩] 0 (fun _ => 0))) 65
      = 65 := by
  decide

/-- Claim C10: for a non-variable font, `setVariation` is a complete
no-op — the state (current axis values and glyph cache included) is
returned unchanged, and a subsequent `parseGlyph` for a cached glyph
index returns the previously cached outline without re-decoding. -/
theorem c10_theorem (st : FontState) (avs : List (String × ℚ))
    (decodeBase : Nat → Option Glyph) (gid : Nat) (g : Glyph)
    (hvar : st.isVariableFont = false)
    (hcache : lookupCache st.glyphCache gid = some g) :
    setVariation st avs = st ∧
    parseGlyph (setVariation st avs) decodeBase gid = (some g, st) := by
  have h1 : setVariation st avs = st := by
    unfold setVariation
    rw [if_neg (by simp [hvar])]
  refine ⟨h1, ?_⟩
  rw [h1]
  unfold parseGlyph
  rw [hcache]

/-- Claim C10, witness: a non-variable font with glyph 3 cached. -/
theorem c10_witness :
    ((⟨1000, [], false, [], [], [(3, ⟨[], 0, 0, 0, 0⟩)]⟩ : FontState).isVariableFont = false ∧
      lookupCache (⟨1000, [], false, [], [], [(3, ⟨[], 0, 0, 0, 0⟩)]⟩ :
        FontState).glyphCache 3 = some ⟨[], 0, 0, 0, 0⟩) ∧
    (setVariation (⟨1000, [], false, [], [], [(3, ⟨[], 0, 0, 0, 0⟩)]⟩ : FontState)
        [("wght", 500)]
      = (⟨1000, [], false, [], [], [(3, ⟨[], 0, 0, 0, 0⟩)]⟩ : FontState) ∧
    parseGlyph (setVariation (⟨1000, [], false, [], [], [(3, ⟨[], 0, 0, 0, 0⟩)]⟩ : FontState)
        [("wght", 500)]) (fun _ => none) 3
      = (some ⟨[], 0, 0, 0, 0⟩, (⟨1000, [], false, [], [], [(3, ⟨[], 0, 0, 0, 0⟩)]⟩ :
          FontState))) :=
  ⟨⟨rfl, rfl⟩, c10_theorem _ _ _ _ _ rfl rfl⟩

end FontToSvg
